import Mathlib

/-!
Verification of the signal-generation and temporal-filtering pipeline of
`src/stock_prediction/models/model_predictor.py` (class `ModelPredictor`).

The embedding models one trading-day observation as a `Row`, the signal
generator (`evaluate_model`, lines 42-45) as a per-probability labelling
function, and the temporal filter (`filter_predictions`, lines 56-78) as a
functional left-to-right pass with explicit `last_minima_idx` /
`last_maxima_idx` state.  Labels follow the source encoding:
`0` = minimum, `1` = maximum, `-1` = neutral.
-/

/-- One row of the per-symbol dataframe: `date`, `close`, the technical
indicator columns, `predicted_probability` and `predicted_target`
(`0` minimum, `1` maximum, `-1` neutral). -/
structure Row where
  date : Int
  close : ℚ
  indicators : List ℚ
  predicted_probability : ℚ
  predicted_target : Int
  deriving DecidableEq

/-- `df.at[idx, 'predicted_target'] = -1`: downgrade a row to neutral. -/
def neutralize (r : Row) : Row := { r with predicted_target := -1 }

/-- Ordering used by `df.sort_values(by='date')`. -/
def dateLe (a b : Row) : Prop := a.date ≤ b.date

instance : DecidableRel dateLe := fun a b => inferInstanceAs (Decidable (a.date ≤ b.date))

instance : IsTotal Row dateLe := ⟨fun a b => Int.le_total a.date b.date⟩

instance : IsTrans Row dateLe := ⟨fun _ _ _ h1 h2 => le_trans h1 h2⟩

/-- `df.sort_values(by='date').reset_index(drop=True)`: sort the rows by date
(indices afterwards are positions `0, 1, 2, ...`). -/
def sortByDate (rows : List Row) : List Row := List.insertionSort dateLe rows

/-- Signal generator, `evaluate_model` lines 42-45:
`y_pred = -1 * ones_like(...)`, then `y_pred[p < min_threshold] = 0`,
then `y_pred[p > max_threshold] = 1` (the later assignment overwrites). -/
def label (min_threshold max_threshold p : ℚ) : Int :=
  let y : Int := -1
  let y := if p < min_threshold then 0 else y
  let y := if p > max_threshold then 1 else y
  y

/-- The row-wise labelling performed by `evaluate_model` over the whole
probability column. -/
def evaluate_model (min_threshold max_threshold : ℚ) (probs : List ℚ) : List Int :=
  probs.map (label min_threshold max_threshold)

/-- The loop body of `filter_predictions` (lines 65-76): walk the rows in
index order carrying `last_minima_idx` and `last_maxima_idx`; a candidate is
kept when its index gap from the last accepted candidate of the same kind is
strictly greater than `window_size`, and downgraded to neutral otherwise. -/
def filterLoop (w : Int) : Int → Int → Int → List Row → List Row
  | _, _, _, [] => []
  | lastMin, lastMax, idx, r :: rs =>
    if r.predicted_target = 0 then
      if idx - lastMin > w then r :: filterLoop w idx lastMax (idx + 1) rs
      else neutralize r :: filterLoop w lastMin lastMax (idx + 1) rs
    else if r.predicted_target = 1 then
      if idx - lastMax > w then r :: filterLoop w lastMin idx (idx + 1) rs
      else neutralize r :: filterLoop w lastMin lastMax (idx + 1) rs
    else r :: filterLoop w lastMin lastMax (idx + 1) rs

/-- `filter_predictions` (lines 56-78): sort by date, reset the index, and run
the suppression loop with both state variables at the sentinel
`-window_size - 1`. -/
def filter_predictions (w : Int) (rows : List Row) : List Row :=
  filterLoop w (-w - 1) (-w - 1) 0 (sortByDate rows)

/-- The (absolute) indices of the rows labelled minimum, starting at `idx`. -/
def minIndices (idx : Int) : List Row → List Int
  | [] => []
  | r :: rs =>
    if r.predicted_target = 0 then idx :: minIndices (idx + 1) rs
    else minIndices (idx + 1) rs

/-- The (absolute) indices of the rows labelled maximum, starting at `idx`. -/
def maxIndices (idx : Int) : List Row → List Int
  | [] => []
  | r :: rs =>
    if r.predicted_target = 1 then idx :: maxIndices (idx + 1) rs
    else maxIndices (idx + 1) rs

/-- The value of `last_minima_idx` after the loop has processed the given
rows, starting from state `lm` at absolute index `idx`. -/
def stMin (w : Int) : Int → Int → List Row → Int
  | lm, _, [] => lm
  | lm, idx, r :: rs =>
    if r.predicted_target = 0 ∧ idx - lm > w then stMin w idx (idx + 1) rs
    else stMin w lm (idx + 1) rs

/-- The value of `last_maxima_idx` after the loop has processed the given
rows, starting from state `lM` at absolute index `idx`. -/
def stMax (w : Int) : Int → Int → List Row → Int
  | lM, _, [] => lM
  | lM, idx, r :: rs =>
    if r.predicted_target = 1 ∧ idx - lM > w then stMax w idx (idx + 1) rs
    else stMax w lM (idx + 1) rs

/-- The two error kinds named by the design for the pipeline. -/
inductive PredictorError where
  | configurationError (message : String)
  | inputContractError (message : String)
  deriving DecidableEq

/-- The `params` dictionary handed to `ModelPredictor.__init__`; a missing key
makes `params.get` fall back to the default. -/
structure Params where
  outputsize : Option Int
  min_max_order : Option Int
  min_threshold : Option ℚ
  max_threshold : Option ℚ
  window_size : Option Int
  deriving DecidableEq

/-- The configuration fields stored on a `ModelPredictor` instance. -/
structure PredictorConfig where
  outputsize : Int
  min_max_order : Int
  min_threshold : ℚ
  max_threshold : ℚ
  window_size : Int
  deriving DecidableEq

/-- `ModelPredictor.__init__` (lines 8-28): reads each parameter with
`params.get(key, default)` and stores it.  The body contains no validation
and raises nothing, so the result is always `Except.ok`. -/
def ModelPredictor.init (params : Params) : Except PredictorError PredictorConfig :=
  Except.ok
    { outputsize := params.outputsize.getD 5000
      min_max_order := params.min_max_order.getD 5
      min_threshold := params.min_threshold.getD 0.00001
      max_threshold := params.max_threshold.getD 0.99999
      window_size := params.window_size.getD 5 }

/-- Whether a fallible computation returned normally (no exception raised). -/
def returnsOk {ε α : Type} : Except ε α → Bool
  | Except.ok _ => true
  | Except.error _ => false


/-- The concrete scenario of the design: a date-sorted five-row sequence with
raw labels `[minimum, minimum, neutral, maximum, maximum]`. -/
def sampleRows : List Row :=
  [⟨0, 1, [], 0, 0⟩, ⟨1, 1, [], 0, 0⟩, ⟨2, 1, [], 0, -1⟩,
   ⟨3, 1, [], 1, 1⟩, ⟨4, 1, [], 1, 1⟩]

/-- A date-sorted sequence with raw minima at positions 0, 2 and 3: with
`window_size = 1` the minima at 0 and 2 are accepted and the one at 3 is
suppressed by its distance from position 2, not from position 0. -/
def clusterRows : List Row :=
  [⟨0, 1, [], 0, 0⟩, ⟨1, 1, [], 0, -1⟩, ⟨2, 1, [], 0, 0⟩, ⟨3, 1, [], 0, 0⟩]

/-- Replace every maximum-labelled row by a neutral one (dates and all other
fields untouched). -/
def eraseMaxima (rows : List Row) : List Row :=
  rows.map (fun r => if r.predicted_target = 1 then neutralize r else r)

/-- Replace every minimum-labelled row by a neutral one (dates and all other
fields untouched). -/
def eraseMinima (rows : List Row) : List Row :=
  rows.map (fun r => if r.predicted_target = 0 then neutralize r else r)

/-- Rows that agree on every field except possibly `predicted_probability`. -/
def sameExceptProb (r r' : Row) : Prop :=
  r.date = r'.date ∧ r.close = r'.close ∧ r.indicators = r'.indicators ∧
  r.predicted_target = r'.predicted_target

/-- `sampleRows` with every `predicted_probability` replaced by `9`. -/
def sampleRowsAltProb : List Row :=
  [⟨0, 1, [], 9, 0⟩, ⟨1, 1, [], 9, 0⟩, ⟨2, 1, [], 9, -1⟩,
   ⟨3, 1, [], 9, 1⟩, ⟨4, 1, [], 9, 1⟩]

/-- Unfolding of the sequential assignments in `label`. -/
theorem label_eq (mt xt p : ℚ) :
    label mt xt p = if p > xt then 1 else if p < mt then 0 else -1 := rfl

/-- C2: for every probability `p` in `[0,1]` and thresholds with
`min_threshold ≤ max_threshold`, the signal generator labels the row
minimum iff `p < min_threshold`, maximum iff `p > max_threshold`, and
neutral otherwise. -/
theorem c2_threshold_correctness (mt xt p : ℚ)
    (hp0 : 0 ≤ p) (hp1 : p ≤ 1) (hmx : mt ≤ xt) :
    (label mt xt p = 0 ↔ p < mt) ∧
    (label mt xt p = 1 ↔ p > xt) ∧
    (label mt xt p = -1 ↔ mt ≤ p ∧ p ≤ xt) := by
  rw [label_eq]
  split_ifs with h1 h2
  · exact ⟨iff_of_false (by decide) (fun h0 => absurd h1 (not_lt.mpr (le_of_lt (lt_of_lt_of_le h0 hmx)))),
      iff_of_true rfl h1,
      iff_of_false (by decide) (fun hc => absurd h1 (not_lt.mpr hc.2))⟩
  · exact ⟨iff_of_true rfl h2,
      iff_of_false (by decide) h1,
      iff_of_false (by decide) (fun hc => absurd h2 (not_lt.mpr hc.1))⟩
  · exact ⟨iff_of_false (by decide) h2,
      iff_of_false (by decide) h1,
      iff_of_true rfl ⟨not_lt.mp h2, not_lt.mp h1⟩⟩

/-- Witness for C2 at `min_threshold = 1`, `max_threshold = 1`, `p = 0`. -/
theorem c2_threshold_correctness_witness : label 1 1 0 = 0 :=
  (c2_threshold_correctness 1 1 0 (by decide) (by decide) (by decide)).1.mpr (by decide)

/-- C10: the generator is total (every probability gets one of the three
labels), and in the inverted-threshold case left open by the design, a
probability below `min_threshold` and above `max_threshold` is labelled
maximum, because the `y_pred[p > max_threshold] = 1` assignment runs after
(and overwrites) the `y_pred[p < min_threshold] = 0` assignment. -/
theorem c10_inverted_thresholds (mt xt p : ℚ) :
    (label mt xt p = -1 ∨ label mt xt p = 0 ∨ label mt xt p = 1) ∧
    (p < mt → p > xt → label mt xt p = 1) := by
  constructor
  · rw [label_eq]
    split_ifs
    · exact Or.inr (Or.inr rfl)
    · exact Or.inr (Or.inl rfl)
    · exact Or.inl rfl
  · intro _ h2
    rw [label_eq, if_pos h2]

/-- Witness for C10 at `min_threshold = 2`, `max_threshold = 0`, `p = 1`. -/
theorem c10_inverted_thresholds_witness : label 2 0 1 = 1 :=
  (c10_inverted_thresholds 2 0 1).2 (by decide) (by decide)

/-- C7 counterexample: constructing a predictor with inverted thresholds
(`min_threshold = 2 > 1 = max_threshold`) returnsOk and stores the values
unchanged — no `ConfigurationError` is raised at construction time. -/
theorem c7_counterexample :
    ModelPredictor.init ⟨some 5000, some 5, some 2, some 1, some 5⟩
      = Except.ok ⟨5000, 5, 2, 1, 5⟩ ∧
    returnsOk (ModelPredictor.init ⟨some 5000, some 5, some 2, some 1, some 5⟩) = true ∧
    (2:ℚ) > 1 :=
  ⟨rfl, rfl, by decide⟩

/-- C7 amended: the pipeline performs no eager validation at all:
`ModelPredictor.__init__` accepts every configuration — inverted thresholds,
thresholds outside `[0,1]`, non-positive `window_size` — and always returns
normally with the supplied values stored; no `ConfigurationError` or
`InputContractError` is raised. -/
theorem c7_no_validation (params : Params) :
    returnsOk (ModelPredictor.init params) = true ∧
    ∃ cfg : PredictorConfig, ModelPredictor.init params = Except.ok cfg ∧
      cfg.min_threshold = params.min_threshold.getD 0.00001 ∧
      cfg.max_threshold = params.max_threshold.getD 0.99999 ∧
      cfg.window_size = params.window_size.getD 5 :=
  ⟨rfl, _, rfl, rfl, rfl, rfl⟩
/-- Frame lemma for the loop: each output row is the corresponding input row,
either unchanged or (for a raw minimum/maximum only) downgraded to neutral. -/
theorem filterLoop_frame (w : Int) :
    ∀ (rows : List Row) (lm lM idx : Int),
      List.Forall₂ (fun r r' => r' = r ∨ (r' = neutralize r ∧
        (r.predicted_target = 0 ∨ r.predicted_target = 1)))
        rows (filterLoop w lm lM idx rows)
  | [], _, _, _ => List.Forall₂.nil
  | r :: rs, lm, lM, idx => by
    by_cases h0 : r.predicted_target = 0
    · by_cases hacc : idx - lm > w
      · simp only [filterLoop, h0, hacc, if_true, reduceIte]
        exact List.Forall₂.cons (Or.inl rfl) (filterLoop_frame w rs idx lM (idx + 1))
      · simp only [filterLoop, h0, hacc, if_true, reduceIte]
        exact List.Forall₂.cons (Or.inr ⟨rfl, Or.inl h0⟩)
          (filterLoop_frame w rs lm lM (idx + 1))
    · by_cases h1 : r.predicted_target = 1
      · by_cases hacc : idx - lM > w
        · simp only [filterLoop, h0, h1, hacc, if_true, reduceIte]
          exact List.Forall₂.cons (Or.inl rfl) (filterLoop_frame w rs lm idx (idx + 1))
        · simp only [filterLoop, h0, h1, hacc, if_true, reduceIte]
          exact List.Forall₂.cons (Or.inr ⟨rfl, Or.inr h1⟩)
            (filterLoop_frame w rs lm lM (idx + 1))
      · simp only [filterLoop, h0, h1, reduceIte]
        exact List.Forall₂.cons (Or.inl rfl) (filterLoop_frame w rs lm lM (idx + 1))

/-- Transfer of date-sortedness along a pointwise date-preserving relation. -/
theorem pairwise_dateLe_of_forall₂ {l₁ l₂ : List Row}
    (h : List.Forall₂ (fun r r' => r'.date = r.date) l₁ l₂)
    (hs : List.Pairwise dateLe l₁) : List.Pairwise dateLe l₂ := by
  obtain ⟨hlen, hget⟩ := List.forall₂_iff_get.mp h
  rw [List.pairwise_iff_get] at hs ⊢
  intro i j hij
  have hi : (i : ℕ) < l₁.length := by omega
  have hj : (j : ℕ) < l₁.length := by omega
  have := hs ⟨i, hi⟩ ⟨j, hj⟩ hij
  unfold dateLe at this ⊢
  rw [hget i hi i.isLt, hget j hj j.isLt]
  exact this


/-- Loop invariant: in the filtered output, the indices of the surviving
minima form a chain (rooted at the incoming `last_minima_idx` state) whose
consecutive gaps are strictly greater than `window_size`. -/
theorem chain_minIndices_filterLoop (w : Int) :
    ∀ (rows : List Row) (lm lM idx : Int),
      List.Chain (fun a b => w < b - a) lm (minIndices idx (filterLoop w lm lM idx rows))
  | [], _, _, _ => List.Chain.nil
  | r :: rs, lm, lM, idx => by
    by_cases h0 : r.predicted_target = 0
    · by_cases hacc : idx - lm > w
      · simp only [filterLoop, minIndices, h0, hacc, if_true, if_pos]
        exact List.Chain.cons hacc (chain_minIndices_filterLoop w rs idx lM (idx + 1))
      · simp only [filterLoop, minIndices, h0, hacc, if_true, if_false, neutralize,
          reduceCtorEq, reduceIte]
        exact chain_minIndices_filterLoop w rs lm lM (idx + 1)
    · by_cases h1 : r.predicted_target = 1
      · by_cases hacc : idx - lM > w
        · simp only [filterLoop, minIndices, h0, h1, hacc, if_true, if_false, reduceIte]
          exact chain_minIndices_filterLoop w rs lm idx (idx + 1)
        · simp only [filterLoop, minIndices, h0, h1, hacc, if_true, if_false, neutralize,
            reduceCtorEq, reduceIte]
          exact chain_minIndices_filterLoop w rs lm lM (idx + 1)
      · simp only [filterLoop, minIndices, h0, h1, if_false, reduceIte]
        exact chain_minIndices_filterLoop w rs lm lM (idx + 1)

/-- Loop invariant: in the filtered output, the indices of the surviving
maxima form a chain (rooted at the incoming `last_maxima_idx` state) whose
consecutive gaps are strictly greater than `window_size`. -/
theorem chain_maxIndices_filterLoop (w : Int) :
    ∀ (rows : List Row) (lm lM idx : Int),
      List.Chain (fun a b => w < b - a) lM (maxIndices idx (filterLoop w lm lM idx rows))
  | [], _, _, _ => List.Chain.nil
  | r :: rs, lm, lM, idx => by
    by_cases h0 : r.predicted_target = 0
    · by_cases hacc : idx - lm > w
      · simp only [filterLoop, maxIndices, h0, hacc, if_true, if_false, reduceIte]
        exact chain_maxIndices_filterLoop w rs idx lM (idx + 1)
      · simp only [filterLoop, maxIndices, h0, hacc, if_true, if_false, neutralize,
          reduceCtorEq, reduceIte]
        exact chain_maxIndices_filterLoop w rs lm lM (idx + 1)
    · by_cases h1 : r.predicted_target = 1
      · by_cases hacc : idx - lM > w
        · simp only [filterLoop, maxIndices, h0, h1, hacc, if_true, if_false, reduceIte]
          exact List.Chain.cons hacc (chain_maxIndices_filterLoop w rs lm idx (idx + 1))
        · simp only [filterLoop, maxIndices, h0, h1, hacc, if_true, if_false, neutralize,
            reduceCtorEq, reduceIte]
          exact chain_maxIndices_filterLoop w rs lm lM (idx + 1)
      · simp only [filterLoop, maxIndices, h0, h1, if_false, reduceIte]
        exact chain_maxIndices_filterLoop w rs lm lM (idx + 1)

/-- If the minima and maxima of the input are already spaced strictly more
than `window_size` apart (relative to the incoming states), the loop changes
nothing. -/
theorem filterLoop_id_of_chains (w : Int) :
    ∀ (rows : List Row) (lm lM idx : Int),
      List.Chain (fun a b => w < b - a) lm (minIndices idx rows) →
      List.Chain (fun a b => w < b - a) lM (maxIndices idx rows) →
      filterLoop w lm lM idx rows = rows
  | [], _, _, _, _, _ => rfl
  | r :: rs, lm, lM, idx, hmin, hmax => by
    by_cases h0 : r.predicted_target = 0
    · have h1 : ¬ r.predicted_target = 1 := by rw [h0]; decide
      simp only [minIndices, h0, if_true, reduceIte] at hmin
      simp only [maxIndices, h1, reduceIte] at hmax
      cases hmin with
      | cons hrel htail =>
        simp only [filterLoop, h0, if_true, reduceIte]
        rw [if_pos hrel, filterLoop_id_of_chains w rs idx lM (idx + 1) htail hmax]
    · by_cases h1 : r.predicted_target = 1
      · simp only [minIndices, h0, reduceIte] at hmin
        simp only [maxIndices, h1, if_true, reduceIte] at hmax
        cases hmax with
        | cons hrel htail =>
          simp only [filterLoop, h0, reduceIte]
          simp only [h1, if_true, reduceIte]
          rw [if_pos hrel, filterLoop_id_of_chains w rs lm idx (idx + 1) hmin htail]
      · simp only [minIndices, h0, reduceIte] at hmin
        simp only [maxIndices, h1, reduceIte] at hmax
        simp only [filterLoop, h0, h1, reduceIte]
        rw [filterLoop_id_of_chains w rs lm lM (idx + 1) hmin hmax]

/-- C5: the temporal filter is idempotent: running `filter_predictions` on
its own output with the same `window_size` returns that output unchanged. -/
theorem c5_idempotent (w : Int) (rows : List Row) :
    filter_predictions w (filter_predictions w rows) = filter_predictions w rows := by
  have hsorted : List.Pairwise dateLe (sortByDate rows) :=
    List.sorted_insertionSort dateLe rows
  have hframe : List.Forall₂ (fun r r' => r'.date = r.date)
      (sortByDate rows) (filterLoop w (-w - 1) (-w - 1) 0 (sortByDate rows)) := by
    refine (filterLoop_frame w (sortByDate rows) (-w - 1) (-w - 1) 0).imp ?_
    intro r r' hr
    rcases hr with rfl | ⟨rfl, _⟩
    · rfl
    · rfl
  have houtsorted : List.Pairwise dateLe (filterLoop w (-w - 1) (-w - 1) 0 (sortByDate rows)) :=
    pairwise_dateLe_of_forall₂ hframe hsorted
  have hresort : sortByDate (filterLoop w (-w - 1) (-w - 1) 0 (sortByDate rows))
      = filterLoop w (-w - 1) (-w - 1) 0 (sortByDate rows) :=
    List.Sorted.insertionSort_eq houtsorted
  show filterLoop w (-w - 1) (-w - 1) 0
      (sortByDate (filterLoop w (-w - 1) (-w - 1) 0 (sortByDate rows)))
    = filterLoop w (-w - 1) (-w - 1) 0 (sortByDate rows)
  rw [hresort]
  exact filterLoop_id_of_chains w (filterLoop w (-w - 1) (-w - 1) 0 (sortByDate rows))
    (-w - 1) (-w - 1) 0
    (chain_minIndices_filterLoop w (sortByDate rows) (-w - 1) (-w - 1) 0)
    (chain_maxIndices_filterLoop w (sortByDate rows) (-w - 1) (-w - 1) 0)

/-- `stMin` over a list containing no raw minima leaves the state unchanged. -/
theorem stMin_no_min (w : Int) :
    ∀ (xs : List Row) (lm idx : Int),
      (∀ r ∈ xs, r.predicted_target ≠ 0) → stMin w lm idx xs = lm
  | [], _, _, _ => rfl
  | r :: rs, lm, idx, h => by
    have h0 : r.predicted_target ≠ 0 := h r (List.mem_cons_self r rs)
    simp only [stMin, h0, false_and, reduceIte]
    exact stMin_no_min w rs lm (idx + 1) (fun x hx => h x (List.mem_cons_of_mem r hx))

/-- `stMax` over a list containing no raw maxima leaves the state unchanged. -/
theorem stMax_no_max (w : Int) :
    ∀ (xs : List Row) (lM idx : Int),
      (∀ r ∈ xs, r.predicted_target ≠ 1) → stMax w lM idx xs = lM
  | [], _, _, _ => rfl
  | r :: rs, lM, idx, h => by
    have h1 : r.predicted_target ≠ 1 := h r (List.mem_cons_self r rs)
    simp only [stMax, h1, false_and, reduceIte]
    exact stMax_no_max w rs lM (idx + 1) (fun x hx => h x (List.mem_cons_of_mem r hx))

/-- While every index in range stays within `window_size` of the state, the
state cannot advance: no candidate in the segment can be accepted. -/
theorem stMin_const (w : Int) :
    ∀ (xs : List Row) (lm idx : Int),
      idx + xs.length ≤ lm + w + 1 → stMin w lm idx xs = lm
  | [], _, _, _ => rfl
  | r :: rs, lm, idx, h => by
    have hlen : (idx : Int) + (r :: rs).length = idx + rs.length + 1 := by
      simp only [List.length_cons]
      push_cast
      ring
    have hacc : ¬ (idx - lm > w) := by
      rw [hlen] at h
      have : (0 : Int) ≤ rs.length := Int.natCast_nonneg rs.length
      omega
    simp only [stMin, hacc, and_false, reduceIte]
    refine stMin_const w rs lm (idx + 1) ?_
    rw [hlen] at h
    omega

/-- Symmetric form of `stMin_const` for the maxima state. -/
theorem stMax_const (w : Int) :
    ∀ (xs : List Row) (lM idx : Int),
      idx + xs.length ≤ lM + w + 1 → stMax w lM idx xs = lM
  | [], _, _, _ => rfl
  | r :: rs, lM, idx, h => by
    have hlen : (idx : Int) + (r :: rs).length = idx + rs.length + 1 := by
      simp only [List.length_cons]
      push_cast
      ring
    have hacc : ¬ (idx - lM > w) := by
      rw [hlen] at h
      have : (0 : Int) ≤ rs.length := Int.natCast_nonneg rs.length
      omega
    simp only [stMax, hacc, and_false, reduceIte]
    refine stMax_const w rs lM (idx + 1) ?_
    rw [hlen] at h
    omega

/-- `stMin` over an appended list runs the two parts in sequence. -/
theorem stMin_append (w : Int) :
    ∀ (xs ys : List Row) (lm idx : Int),
      stMin w lm idx (xs ++ ys) = stMin w (stMin w lm idx xs) (idx + xs.length) ys
  | [], ys, lm, idx => by simp [stMin]
  | r :: rs, ys, lm, idx => by
    have hlen : (idx : Int) + ((r :: rs).length : Int) = (idx + 1) + (rs.length : Int) := by
      push_cast [List.length_cons]
      ring
    have l1 : stMin w lm idx ((r :: rs) ++ ys)
        = if r.predicted_target = 0 ∧ idx - lm > w then stMin w idx (idx + 1) (rs ++ ys)
          else stMin w lm (idx + 1) (rs ++ ys) := rfl
    have l2 : stMin w lm idx (r :: rs)
        = if r.predicted_target = 0 ∧ idx - lm > w then stMin w idx (idx + 1) rs
          else stMin w lm (idx + 1) rs := rfl
    by_cases hc : r.predicted_target = 0 ∧ idx - lm > w
    · rw [l1, l2, if_pos hc, if_pos hc, stMin_append w rs ys idx (idx + 1), hlen]
    · rw [l1, l2, if_neg hc, if_neg hc, stMin_append w rs ys lm (idx + 1), hlen]

/-- `stMax` over an appended list runs the two parts in sequence. -/
theorem stMax_append (w : Int) :
    ∀ (xs ys : List Row) (lM idx : Int),
      stMax w lM idx (xs ++ ys) = stMax w (stMax w lM idx xs) (idx + xs.length) ys
  | [], ys, lM, idx => by simp [stMax]
  | r :: rs, ys, lM, idx => by
    have hlen : (idx : Int) + ((r :: rs).length : Int) = (idx + 1) + (rs.length : Int) := by
      push_cast [List.length_cons]
      ring
    have l1 : stMax w lM idx ((r :: rs) ++ ys)
        = if r.predicted_target = 1 ∧ idx - lM > w then stMax w idx (idx + 1) (rs ++ ys)
          else stMax w lM (idx + 1) (rs ++ ys) := rfl
    have l2 : stMax w lM idx (r :: rs)
        = if r.predicted_target = 1 ∧ idx - lM > w then stMax w idx (idx + 1) rs
          else stMax w lM (idx + 1) rs := rfl
    by_cases hc : r.predicted_target = 1 ∧ idx - lM > w
    · rw [l1, l2, if_pos hc, if_pos hc, stMax_append w rs ys idx (idx + 1), hlen]
    · rw [l1, l2, if_neg hc, if_neg hc, stMax_append w rs ys lM (idx + 1), hlen]

/-- Positional characterization of the loop: the output row at position `j`
is the input row at `j`, kept exactly when the gap from the accumulated state
of its own kind over the first `j` rows strictly exceeds `window_size`. -/
theorem filterLoop_getElem (w : Int) :
    ∀ (rows : List Row) (lm lM idx : Int) (j : Nat),
      (filterLoop w lm lM idx rows)[j]? =
        (rows[j]?).map (fun r =>
          if r.predicted_target = 0 then
            (if idx + (j : Int) - stMin w lm idx (rows.take j) > w then r else neutralize r)
          else if r.predicted_target = 1 then
            (if idx + (j : Int) - stMax w lM idx (rows.take j) > w then r else neutralize r)
          else r)
  | [], lm, lM, idx, j => by simp [filterLoop]
  | r :: rs, lm, lM, idx, 0 => by
    have hcast : (idx : Int) + ((0 : Nat) : Int) = idx := by push_cast; ring
    simp only [List.getElem?_cons_zero, List.take_zero, stMin, stMax, hcast, Option.map_some']
    by_cases h0 : r.predicted_target = 0
    · by_cases hacc : idx - lm > w
      · have hfl : filterLoop w lm lM idx (r :: rs) = r :: filterLoop w idx lM (idx + 1) rs := by
          show (if r.predicted_target = 0 then _ else _) = _
          rw [if_pos h0, if_pos hacc]
        rw [hfl, List.getElem?_cons_zero, if_pos h0, if_pos hacc]
      · have hfl : filterLoop w lm lM idx (r :: rs)
            = neutralize r :: filterLoop w lm lM (idx + 1) rs := by
          show (if r.predicted_target = 0 then _ else _) = _
          rw [if_pos h0, if_neg hacc]
        rw [hfl, List.getElem?_cons_zero, if_pos h0, if_neg hacc]
    · by_cases h1 : r.predicted_target = 1
      · by_cases hacc : idx - lM > w
        · have hfl : filterLoop w lm lM idx (r :: rs) = r :: filterLoop w lm idx (idx + 1) rs := by
            show (if r.predicted_target = 0 then _ else _) = _
            rw [if_neg h0, if_pos h1, if_pos hacc]
          rw [hfl, List.getElem?_cons_zero, if_neg h0, if_pos h1, if_pos hacc]
        · have hfl : filterLoop w lm lM idx (r :: rs)
              = neutralize r :: filterLoop w lm lM (idx + 1) rs := by
            show (if r.predicted_target = 0 then _ else _) = _
            rw [if_neg h0, if_pos h1, if_neg hacc]
          rw [hfl, List.getElem?_cons_zero, if_neg h0, if_pos h1, if_neg hacc]
      · have hfl : filterLoop w lm lM idx (r :: rs) = r :: filterLoop w lm lM (idx + 1) rs := by
          show (if r.predicted_target = 0 then _ else _) = _
          rw [if_neg h0, if_neg h1]
        rw [hfl, List.getElem?_cons_zero, if_neg h0, if_neg h1]
  | r :: rs, lm, lM, idx, Nat.succ j => by
    have hcast : (idx : Int) + ((Nat.succ j : Nat) : Int) = (idx + 1) + (j : Int) := by
      push_cast
      ring
    have htake : (r :: rs).take (Nat.succ j) = r :: rs.take j := rfl
    by_cases h0 : r.predicted_target = 0
    · have hm1 : ¬ r.predicted_target = 1 := by rw [h0]; decide
      have hstmax : stMax w lM idx ((r :: rs).take (Nat.succ j)) = stMax w lM (idx + 1) (rs.take j) := by
        rw [htake]
        show (if r.predicted_target = 1 ∧ idx - lM > w then _ else _) = _
        rw [if_neg (fun hx => hm1 hx.1)]
      by_cases hacc : idx - lm > w
      · have hfl : filterLoop w lm lM idx (r :: rs) = r :: filterLoop w idx lM (idx + 1) rs := by
          show (if r.predicted_target = 0 then _ else _) = _
          rw [if_pos h0, if_pos hacc]
        have hstmin : stMin w lm idx ((r :: rs).take (Nat.succ j)) = stMin w idx (idx + 1) (rs.take j) := by
          rw [htake]
          show (if r.predicted_target = 0 ∧ idx - lm > w then _ else _) = _
          rw [if_pos ⟨h0, hacc⟩]
        rw [hfl, List.getElem?_cons_succ, List.getElem?_cons_succ,
          filterLoop_getElem w rs idx lM (idx + 1) j]
        simp only [hstmin, hstmax, hcast]
      · have hfl : filterLoop w lm lM idx (r :: rs)
            = neutralize r :: filterLoop w lm lM (idx + 1) rs := by
          show (if r.predicted_target = 0 then _ else _) = _
          rw [if_pos h0, if_neg hacc]
        have hstmin : stMin w lm idx ((r :: rs).take (Nat.succ j)) = stMin w lm (idx + 1) (rs.take j) := by
          rw [htake]
          show (if r.predicted_target = 0 ∧ idx - lm > w then _ else _) = _
          rw [if_neg (fun hx => hacc hx.2)]
        rw [hfl, List.getElem?_cons_succ, List.getElem?_cons_succ,
          filterLoop_getElem w rs lm lM (idx + 1) j]
        simp only [hstmin, hstmax, hcast]
    · have hstmin : stMin w lm idx ((r :: rs).take (Nat.succ j)) = stMin w lm (idx + 1) (rs.take j) := by
        rw [htake]
        show (if r.predicted_target = 0 ∧ idx - lm > w then _ else _) = _
        rw [if_neg (fun hx => h0 hx.1)]
      by_cases h1 : r.predicted_target = 1
      · by_cases hacc : idx - lM > w
        · have hfl : filterLoop w lm lM idx (r :: rs) = r :: filterLoop w lm idx (idx + 1) rs := by
            show (if r.predicted_target = 0 then _ else _) = _
            rw [if_neg h0, if_pos h1, if_pos hacc]
          have hstmax : stMax w lM idx ((r :: rs).take (Nat.succ j)) = stMax w idx (idx + 1) (rs.take j) := by
            rw [htake]
            show (if r.predicted_target = 1 ∧ idx - lM > w then _ else _) = _
            rw [if_pos ⟨h1, hacc⟩]
          rw [hfl, List.getElem?_cons_succ, List.getElem?_cons_succ,
            filterLoop_getElem w rs lm idx (idx + 1) j]
          simp only [hstmin, hstmax, hcast]
        · have hfl : filterLoop w lm lM idx (r :: rs)
              = neutralize r :: filterLoop w lm lM (idx + 1) rs := by
            show (if r.predicted_target = 0 then _ else _) = _
            rw [if_neg h0, if_pos h1, if_neg hacc]
          have hstmax : stMax w lM idx ((r :: rs).take (Nat.succ j)) = stMax w lM (idx + 1) (rs.take j) := by
            rw [htake]
            show (if r.predicted_target = 1 ∧ idx - lM > w then _ else _) = _
            rw [if_neg (fun hx => hacc hx.2)]
          rw [hfl, List.getElem?_cons_succ, List.getElem?_cons_succ,
            filterLoop_getElem w rs lm lM (idx + 1) j]
          simp only [hstmin, hstmax, hcast]
      · have hfl : filterLoop w lm lM idx (r :: rs) = r :: filterLoop w lm lM (idx + 1) rs := by
          show (if r.predicted_target = 0 then _ else _) = _
          rw [if_neg h0, if_neg h1]
        have hstmax : stMax w lM idx ((r :: rs).take (Nat.succ j)) = stMax w lM (idx + 1) (rs.take j) := by
          rw [htake]
          show (if r.predicted_target = 1 ∧ idx - lM > w then _ else _) = _
          rw [if_neg (fun hx => h1 hx.1)]
        rw [hfl, List.getElem?_cons_succ, List.getElem?_cons_succ,
          filterLoop_getElem w rs lm lM (idx + 1) j]
        simp only [hstmin, hstmax, hcast]


example :
    (filter_predictions 1 sampleRows).map Row.predicted_target
    = [0, -1, -1, 1, -1] := by decide

/-- C1: for every date-sorted input and positive `window_size`, consecutive
surviving labels of the same kind in the filtered output are spaced strictly
more than `window_size` indices apart. -/
theorem c1_spacing_invariant (w : Int) (rows : List Row)
    (hw : 0 < w) (hsorted : List.Pairwise dateLe rows) :
    List.Chain' (fun a b => w < b - a) (minIndices 0 (filter_predictions w rows)) ∧
    List.Chain' (fun a b => w < b - a) (maxIndices 0 (filter_predictions w rows)) := by
  constructor
  · have hmin : List.Chain' (fun a b : Int => w < b - a)
        ((-w - 1) :: minIndices 0 (filterLoop w (-w - 1) (-w - 1) 0 (sortByDate rows))) :=
      chain_minIndices_filterLoop w (sortByDate rows) (-w - 1) (-w - 1) 0
    exact hmin.tail
  · have hmax : List.Chain' (fun a b : Int => w < b - a)
        ((-w - 1) :: maxIndices 0 (filterLoop w (-w - 1) (-w - 1) 0 (sortByDate rows))) :=
      chain_maxIndices_filterLoop w (sortByDate rows) (-w - 1) (-w - 1) 0
    exact hmax.tail

/-- C9: the filter leaves `date`, `close`, the indicator columns and
`predicted_probability` of every row unchanged, keeps the rows in order, and
only ever moves `predicted_target` from minimum (`0`) or maximum (`1`) to
neutral (`-1`) — never neutral to a signal and never between kinds. -/
theorem c9_frame_condition (w : Int) (rows : List Row)
    (hsorted : List.Pairwise dateLe rows) :
    List.Forall₂ (fun r r' =>
      r'.date = r.date ∧ r'.close = r.close ∧ r'.indicators = r.indicators ∧
      r'.predicted_probability = r.predicted_probability ∧
      (r'.predicted_target = r.predicted_target ∨
        (r'.predicted_target = -1 ∧ (r.predicted_target = 0 ∨ r.predicted_target = 1))))
      rows (filter_predictions w rows) := by
  have hsort : sortByDate rows = rows := List.Sorted.insertionSort_eq hsorted
  have hframe := filterLoop_frame w (sortByDate rows) (-w - 1) (-w - 1) 0
  rw [hsort] at hframe
  have hgoal : filter_predictions w rows = filterLoop w (-w - 1) (-w - 1) 0 rows := by
    rw [filter_predictions, hsort]
  rw [hgoal]
  refine hframe.imp ?_
  intro r r' hr
  rcases hr with rfl | ⟨rfl, hk⟩
  · exact ⟨rfl, rfl, rfl, rfl, Or.inl rfl⟩
  · exact ⟨rfl, rfl, rfl, rfl, Or.inr ⟨rfl, hk⟩⟩

/-- Witness for C9 on the design's concrete scenario with `window_size = 1`. -/
theorem c9_frame_condition_witness :
    List.Pairwise dateLe sampleRows ∧
    List.Forall₂ (fun r r' =>
      r'.date = r.date ∧ r'.close = r.close ∧ r'.indicators = r.indicators ∧
      r'.predicted_probability = r.predicted_probability ∧
      (r'.predicted_target = r.predicted_target ∨
        (r'.predicted_target = -1 ∧ (r.predicted_target = 0 ∨ r.predicted_target = 1))))
      sampleRows (filter_predictions 1 sampleRows) :=
  ⟨by decide, c9_frame_condition 1 sampleRows (by decide)⟩

/-- Witness for C1 on the design's concrete scenario with `window_size = 1`. -/
theorem c1_spacing_invariant_witness :
    (0 : Int) < 1 ∧ List.Pairwise dateLe sampleRows ∧
    (List.Chain' (fun a b => 1 < b - a) (minIndices 0 (filter_predictions 1 sampleRows)) ∧
     List.Chain' (fun a b => 1 < b - a) (maxIndices 0 (filter_predictions 1 sampleRows))) :=
  ⟨by decide, by decide, c1_spacing_invariant 1 sampleRows (by decide) (by decide)⟩


/-- C8: because both state variables start at the sentinel
`-window_size - 1`, the first raw candidate of each kind in any date-sorted
input is always kept by the filter, wherever it occurs. -/
theorem c8_first_candidate_accepted (w : Int) (rows : List Row) (j : Nat) (r : Row)
    (hsorted : List.Pairwise dateLe rows) (hj : rows[j]? = some r) :
    (r.predicted_target = 0 → (∀ x ∈ rows.take j, x.predicted_target ≠ 0) →
      (filter_predictions w rows)[j]? = some r) ∧
    (r.predicted_target = 1 → (∀ x ∈ rows.take j, x.predicted_target ≠ 1) →
      (filter_predictions w rows)[j]? = some r) := by
  have hsort : sortByDate rows = rows := List.Sorted.insertionSort_eq hsorted
  have hfp : filter_predictions w rows = filterLoop w (-w - 1) (-w - 1) 0 rows := by
    rw [filter_predictions, hsort]
  have hj0 : (0 : Int) ≤ (j : Int) := Int.natCast_nonneg j
  constructor
  · intro h0 hnone
    rw [hfp, filterLoop_getElem w rows (-w - 1) (-w - 1) 0 j, hj, Option.map_some']
    rw [stMin_no_min w (rows.take j) (-w - 1) 0 hnone]
    rw [if_pos h0, if_pos (by omega : (0 : Int) + (j : Int) - (-w - 1) > w)]
  · intro h1 hnone
    have h0 : ¬ r.predicted_target = 0 := by rw [h1]; decide
    rw [hfp, filterLoop_getElem w rows (-w - 1) (-w - 1) 0 j, hj, Option.map_some']
    rw [stMax_no_max w (rows.take j) (-w - 1) 0 hnone]
    rw [if_neg h0, if_pos h1, if_pos (by omega : (0 : Int) + (j : Int) - (-w - 1) > w)]

/-- Witness for C8: in the sample scenario with `window_size = 1`, the first
raw minimum (position 0) and the first raw maximum (position 3) are kept. -/
theorem c8_first_candidate_accepted_witness :
    (filter_predictions 1 sampleRows)[0]? = some ⟨0, 1, [], 0, 0⟩ ∧
    (filter_predictions 1 sampleRows)[3]? = some ⟨3, 1, [], 1, 1⟩ :=
  ⟨(c8_first_candidate_accepted 1 sampleRows 0 ⟨0, 1, [], 0, 0⟩ (by decide) (by decide)).1
      (by decide) (by decide),
   (c8_first_candidate_accepted 1 sampleRows 3 ⟨3, 1, [], 1, 1⟩ (by decide) (by decide)).2
      (by decide) (by decide)⟩

/-- `stMin` on a one-element list. -/
theorem stMin_singleton (w : Int) (r : Row) (lm idx : Int) :
    stMin w lm idx [r] =
      if r.predicted_target = 0 ∧ idx - lm > w then idx else lm := by
  by_cases hc : r.predicted_target = 0 ∧ idx - lm > w
  · show (if r.predicted_target = 0 ∧ idx - lm > w then stMin w idx (idx + 1) []
        else stMin w lm (idx + 1) []) = _
    rw [if_pos hc, if_pos hc]
    rfl
  · show (if r.predicted_target = 0 ∧ idx - lm > w then stMin w idx (idx + 1) []
        else stMin w lm (idx + 1) []) = _
    rw [if_neg hc, if_neg hc]
    rfl

/-- `stMax` on a one-element list. -/
theorem stMax_singleton (w : Int) (r : Row) (lM idx : Int) :
    stMax w lM idx [r] =
      if r.predicted_target = 1 ∧ idx - lM > w then idx else lM := by
  by_cases hc : r.predicted_target = 1 ∧ idx - lM > w
  · show (if r.predicted_target = 1 ∧ idx - lM > w then stMax w idx (idx + 1) []
        else stMax w lM (idx + 1) []) = _
    rw [if_pos hc, if_pos hc]
    rfl
  · show (if r.predicted_target = 1 ∧ idx - lM > w then stMax w idx (idx + 1) []
        else stMax w lM (idx + 1) []) = _
    rw [if_neg hc, if_neg hc]
    rfl

/-- Inversion: if the filtered output keeps a minimum at position `i`, the
input has that same raw minimum at `i`, its spacing test passed, and the
minima state after the first `i + 1` rows equals `i`. -/
theorem accepted_min_state (w : Int) (rows : List Row) (i : Nat) (ri : Row)
    (hi : (filterLoop w (-w - 1) (-w - 1) 0 rows)[i]? = some ri)
    (h0 : ri.predicted_target = 0) :
    rows[i]? = some ri ∧
    (0 : Int) + (i : Int) - stMin w (-w - 1) 0 (rows.take i) > w ∧
    stMin w (-w - 1) 0 (rows.take (i + 1)) = (i : Int) := by
  rw [filterLoop_getElem w rows (-w - 1) (-w - 1) 0 i] at hi
  cases hrows : rows[i]? with
  | none =>
    rw [hrows] at hi
    simp at hi
  | some r =>
    rw [hrows, Option.map_some'] at hi
    have hfr := Option.some.inj hi
    by_cases hr0 : r.predicted_target = 0
    · rw [if_pos hr0] at hfr
      by_cases hacc : (0 : Int) + (i : Int) - stMin w (-w - 1) 0 (rows.take i) > w
      · rw [if_pos hacc] at hfr
        subst hfr
        refine ⟨rfl, hacc, ?_⟩
        have hlt : i < rows.length := by
          rcases List.getElem?_eq_some_iff.mp hrows with ⟨h, _⟩
          exact h
        have htk : rows.take (i + 1) = rows.take i ++ [r] := by
          rw [List.take_succ, hrows]
          rfl
        rw [htk, stMin_append w (rows.take i) [r] (-w - 1) 0, stMin_singleton]
        have hlen : (0 : Int) + ((rows.take i).length : Int) = (i : Int) := by
          rw [List.length_take]
          have hmin : min i rows.length = i := Nat.min_eq_left (Nat.le_of_lt hlt)
          rw [hmin]
          ring
        rw [hlen,
          if_pos (And.intro hr0
            (show (i : Int) - stMin w (-w - 1) 0 (rows.take i) > w by omega))]
      · rw [if_neg hacc] at hfr
        rw [← hfr] at h0
        simp [neutralize] at h0
    · by_cases hr1 : r.predicted_target = 1
      · rw [if_neg hr0, if_pos hr1] at hfr
        by_cases hacc : (0 : Int) + (i : Int) - stMax w (-w - 1) 0 (rows.take i) > w
        · rw [if_pos hacc] at hfr
          rw [← hfr] at h0
          exact absurd h0 (by rw [hr1]; decide)
        · rw [if_neg hacc] at hfr
          rw [← hfr] at h0
          simp [neutralize] at h0
      · rw [if_neg hr0, if_neg hr1] at hfr
        rw [← hfr] at h0
        exact absurd h0 hr0

/-- Inversion: if the filtered output keeps a maximum at position `i`, the
input has that same raw maximum at `i`, its spacing test passed, and the
maxima state after the first `i + 1` rows equals `i`. -/
theorem accepted_max_state (w : Int) (rows : List Row) (i : Nat) (ri : Row)
    (hi : (filterLoop w (-w - 1) (-w - 1) 0 rows)[i]? = some ri)
    (h1 : ri.predicted_target = 1) :
    rows[i]? = some ri ∧
    (0 : Int) + (i : Int) - stMax w (-w - 1) 0 (rows.take i) > w ∧
    stMax w (-w - 1) 0 (rows.take (i + 1)) = (i : Int) := by
  rw [filterLoop_getElem w rows (-w - 1) (-w - 1) 0 i] at hi
  cases hrows : rows[i]? with
  | none =>
    rw [hrows] at hi
    simp at hi
  | some r =>
    rw [hrows, Option.map_some'] at hi
    have hfr := Option.some.inj hi
    by_cases hr0 : r.predicted_target = 0
    · rw [if_pos hr0] at hfr
      by_cases hacc : (0 : Int) + (i : Int) - stMin w (-w - 1) 0 (rows.take i) > w
      · rw [if_pos hacc] at hfr
        rw [← hfr] at h1
        exact absurd h1 (by rw [hr0]; decide)
      · rw [if_neg hacc] at hfr
        rw [← hfr] at h1
        simp [neutralize] at h1
    · by_cases hr1 : r.predicted_target = 1
      · rw [if_neg hr0, if_pos hr1] at hfr
        by_cases hacc : (0 : Int) + (i : Int) - stMax w (-w - 1) 0 (rows.take i) > w
        · rw [if_pos hacc] at hfr
          subst hfr
          refine ⟨rfl, hacc, ?_⟩
          have hlt : i < rows.length := by
            rcases List.getElem?_eq_some_iff.mp hrows with ⟨h, _⟩
            exact h
          have htk : rows.take (i + 1) = rows.take i ++ [r] := by
            rw [List.take_succ, hrows]
            rfl
          rw [htk, stMax_append w (rows.take i) [r] (-w - 1) 0, stMax_singleton]
          have hlen : (0 : Int) + ((rows.take i).length : Int) = (i : Int) := by
            rw [List.length_take]
            have hmin : min i rows.length = i := Nat.min_eq_left (Nat.le_of_lt hlt)
            rw [hmin]
            ring
          rw [hlen,
            if_pos (And.intro hr1
              (show (i : Int) - stMax w (-w - 1) 0 (rows.take i) > w by omega))]
        · rw [if_neg hacc] at hfr
          rw [← hfr] at h1
          simp [neutralize] at h1
      · rw [if_neg hr0, if_neg hr1] at hfr
        rw [← hfr] at h1
        exact absurd h1 hr1

/-- The minima state is unchanged across a stretch that contains no raw
minima. -/
theorem stMin_between (w : Int) (rows : List Row) (i j : Nat) (hij : i < j)
    (hst : stMin w (-w - 1) 0 (rows.take (i + 1)) = (i : Int))
    (hbet : ∀ k : Nat, i < k → k < j → ∀ x, rows[k]? = some x →
      x.predicted_target ≠ 0) :
    stMin w (-w - 1) 0 (rows.take j) = (i : Int) := by
  have hsplit : rows.take j
      = rows.take (i + 1) ++ (rows.drop (i + 1)).take (j - (i + 1)) := by
    rw [← List.take_add]
    congr 1
    omega
  rw [hsplit,
    stMin_append w (rows.take (i + 1)) ((rows.drop (i + 1)).take (j - (i + 1))) (-w - 1) 0,
    hst]
  apply stMin_no_min
  intro x hx
  rcases List.mem_iff_getElem?.mp hx with ⟨k', hk'⟩
  obtain ⟨hk'lt, -⟩ := List.getElem?_eq_some_iff.mp hk'
  rw [List.length_take] at hk'lt
  have hk'lt2 : k' < j - (i + 1) := lt_of_lt_of_le hk'lt (Nat.min_le_left _ _)
  rw [List.getElem?_take_of_lt hk'lt2, List.getElem?_drop] at hk'
  exact hbet (i + 1 + k') (by omega) (by omega) x hk'

/-- The maxima state is unchanged across a stretch that contains no raw
maxima. -/
theorem stMax_between (w : Int) (rows : List Row) (i j : Nat) (hij : i < j)
    (hst : stMax w (-w - 1) 0 (rows.take (i + 1)) = (i : Int))
    (hbet : ∀ k : Nat, i < k → k < j → ∀ x, rows[k]? = some x →
      x.predicted_target ≠ 1) :
    stMax w (-w - 1) 0 (rows.take j) = (i : Int) := by
  have hsplit : rows.take j
      = rows.take (i + 1) ++ (rows.drop (i + 1)).take (j - (i + 1)) := by
    rw [← List.take_add]
    congr 1
    omega
  rw [hsplit,
    stMax_append w (rows.take (i + 1)) ((rows.drop (i + 1)).take (j - (i + 1))) (-w - 1) 0,
    hst]
  apply stMax_no_max
  intro x hx
  rcases List.mem_iff_getElem?.mp hx with ⟨k', hk'⟩
  obtain ⟨hk'lt, -⟩ := List.getElem?_eq_some_iff.mp hk'
  rw [List.length_take] at hk'lt
  have hk'lt2 : k' < j - (i + 1) := lt_of_lt_of_le hk'lt (Nat.min_le_left _ _)
  rw [List.getElem?_take_of_lt hk'lt2, List.getElem?_drop] at hk'
  exact hbet (i + 1 + k') (by omega) (by omega) x hk'

/-- Within `window_size` of an accepted minimum the state cannot advance. -/
theorem stMin_window (w : Int) (rows : List Row) (i j : Nat) (hij : i < j)
    (hjw : (j : Int) - (i : Int) ≤ w)
    (hst : stMin w (-w - 1) 0 (rows.take (i + 1)) = (i : Int)) :
    stMin w (-w - 1) 0 (rows.take j) = (i : Int) := by
  have hsplit : rows.take j
      = rows.take (i + 1) ++ (rows.drop (i + 1)).take (j - (i + 1)) := by
    rw [← List.take_add]
    congr 1
    omega
  rw [hsplit,
    stMin_append w (rows.take (i + 1)) ((rows.drop (i + 1)).take (j - (i + 1))) (-w - 1) 0,
    hst]
  apply stMin_const
  have h1 : (rows.take (i + 1)).length ≤ i + 1 := by
    rw [List.length_take]
    exact Nat.min_le_left _ _
  have h2 : ((rows.drop (i + 1)).take (j - (i + 1))).length ≤ j - (i + 1) := by
    rw [List.length_take]
    exact Nat.min_le_left _ _
  omega

/-- Within `window_size` of an accepted maximum the state cannot advance. -/
theorem stMax_window (w : Int) (rows : List Row) (i j : Nat) (hij : i < j)
    (hjw : (j : Int) - (i : Int) ≤ w)
    (hst : stMax w (-w - 1) 0 (rows.take (i + 1)) = (i : Int)) :
    stMax w (-w - 1) 0 (rows.take j) = (i : Int) := by
  have hsplit : rows.take j
      = rows.take (i + 1) ++ (rows.drop (i + 1)).take (j - (i + 1)) := by
    rw [← List.take_add]
    congr 1
    omega
  rw [hsplit,
    stMax_append w (rows.take (i + 1)) ((rows.drop (i + 1)).take (j - (i + 1))) (-w - 1) 0,
    hst]
  apply stMax_const
  have h1 : (rows.take (i + 1)).length ≤ i + 1 := by
    rw [List.length_take]
    exact Nat.min_le_left _ _
  have h2 : ((rows.drop (i + 1)).take (j - (i + 1))).length ≤ j - (i + 1) := by
    rw [List.length_take]
    exact Nat.min_le_left _ _
  omega

/-- C3 counterexample: with `window_size = 1` and raw minima at positions 0,
2, 3, position 3 is suppressed even though its gap from the accepted minimum
at position 0 is 3 > 1: suppression is decided against the *previous*
accepted candidate of the kind, not against an arbitrary earlier one. -/
theorem c3_counterexample :
    ¬ (∀ (w : Int) (rows : List Row) (i j : Nat) (ri rj : Row),
        List.Pairwise dateLe rows →
        (filter_predictions w rows)[i]? = some ri → ri.predicted_target = 0 →
        rows[j]? = some rj → rj.predicted_target = 0 → i < j →
        ((filter_predictions w rows)[j]? = some (neutralize rj) ↔
          (j : Int) - (i : Int) ≤ w)) := by
  intro h
  have h2 := h 1 clusterRows 0 3 ⟨0, 1, [], 0, 0⟩ ⟨3, 1, [], 0, 0⟩ (by decide)
    (by decide) (by decide) (by decide) (by decide) (by decide)
  have h3 : (filter_predictions 1 clusterRows)[3]?
      = some (neutralize ⟨3, 1, [], 0, 0⟩) := by decide
  have h4 := h2.mp h3
  omega

/-- C3 (amended): if a candidate of some kind is kept at index `i` and the
next raw candidate of the same kind sits at index `j` (no raw candidate of
that kind strictly between), then `j` is downgraded to neutral exactly when
`j - i ≤ window_size`, and kept exactly when `j - i > window_size` (strict
comparison: a gap of exactly `window_size` is suppressed). -/
theorem c3_window_boundary (w : Int) (rows : List Row) (i j : Nat) (ri rj : Row)
    (hsorted : List.Pairwise dateLe rows)
    (hacc : (filter_predictions w rows)[i]? = some ri)
    (hj : rows[j]? = some rj)
    (hij : i < j) :
    (ri.predicted_target = 0 → rj.predicted_target = 0 →
      (∀ k : Nat, i < k → k < j → ∀ x, rows[k]? = some x →
        x.predicted_target ≠ 0) →
      (((filter_predictions w rows)[j]? = some (neutralize rj) ↔
          (j : Int) - (i : Int) ≤ w) ∧
       ((filter_predictions w rows)[j]? = some rj ↔
          (j : Int) - (i : Int) > w))) ∧
    (ri.predicted_target = 1 → rj.predicted_target = 1 →
      (∀ k : Nat, i < k → k < j → ∀ x, rows[k]? = some x →
        x.predicted_target ≠ 1) →
      (((filter_predictions w rows)[j]? = some (neutralize rj) ↔
          (j : Int) - (i : Int) ≤ w) ∧
       ((filter_predictions w rows)[j]? = some rj ↔
          (j : Int) - (i : Int) > w))) := by
  have hsort : sortByDate rows = rows := List.Sorted.insertionSort_eq hsorted
  have hfp : filter_predictions w rows = filterLoop w (-w - 1) (-w - 1) 0 rows := by
    rw [filter_predictions, hsort]
  constructor
  · intro h0 hrawj hbet
    have hne : ¬ (rj = neutralize rj) := fun he => by
      have hx := congrArg Row.predicted_target he
      rw [hrawj] at hx
      simp [neutralize] at hx
    rw [hfp] at hacc
    obtain ⟨hri, hcond, hst⟩ := accepted_min_state w rows i ri hacc h0
    have hstj : stMin w (-w - 1) 0 (rows.take j) = (i : Int) :=
      stMin_between w rows i j hij hst hbet
    have hchar := filterLoop_getElem w rows (-w - 1) (-w - 1) 0 j
    rw [hj, Option.map_some'] at hchar
    rw [hfp, hchar, if_pos hrawj, hstj]
    by_cases hcw : (j : Int) - (i : Int) > w
    · rw [if_pos (show (0 : Int) + (j : Int) - (i : Int) > w by omega)]
      exact ⟨iff_of_false (fun he => hne (Option.some.inj he)) (by omega),
        iff_of_true rfl hcw⟩
    · rw [if_neg (show ¬ ((0 : Int) + (j : Int) - (i : Int) > w) by omega)]
      exact ⟨iff_of_true rfl (by omega),
        iff_of_false (fun he => hne (Option.some.inj he).symm) hcw⟩
  · intro h1 hrawj hbet
    have hr0 : ¬ rj.predicted_target = 0 := by rw [hrawj]; decide
    have hne : ¬ (rj = neutralize rj) := fun he => by
      have hx := congrArg Row.predicted_target he
      rw [hrawj] at hx
      simp [neutralize] at hx
    rw [hfp] at hacc
    obtain ⟨hri, hcond, hst⟩ := accepted_max_state w rows i ri hacc h1
    have hstj : stMax w (-w - 1) 0 (rows.take j) = (i : Int) :=
      stMax_between w rows i j hij hst hbet
    have hchar := filterLoop_getElem w rows (-w - 1) (-w - 1) 0 j
    rw [hj, Option.map_some'] at hchar
    rw [hfp, hchar, if_neg hr0, if_pos hrawj, hstj]
    by_cases hcw : (j : Int) - (i : Int) > w
    · rw [if_pos (show (0 : Int) + (j : Int) - (i : Int) > w by omega)]
      exact ⟨iff_of_false (fun he => hne (Option.some.inj he)) (by omega),
        iff_of_true rfl hcw⟩
    · rw [if_neg (show ¬ ((0 : Int) + (j : Int) - (i : Int) > w) by omega)]
      exact ⟨iff_of_true rfl (by omega),
        iff_of_false (fun he => hne (Option.some.inj he).symm) hcw⟩

/-- Witness for the amended C3: in `clusterRows` with `window_size = 1`, the
raw minimum at position 2 (next after the accepted one at position 0) is kept
because its gap 2 exceeds the window. -/
theorem c3_window_boundary_witness :
    ((filter_predictions 1 clusterRows)[2]? = some (neutralize ⟨2, 1, [], 0, 0⟩) ↔
      ((2 : Nat) : Int) - ((0 : Nat) : Int) ≤ 1) ∧
    ((filter_predictions 1 clusterRows)[2]? = some ⟨2, 1, [], 0, 0⟩ ↔
      ((2 : Nat) : Int) - ((0 : Nat) : Int) > 1) :=
  (c3_window_boundary 1 clusterRows 0 2 ⟨0, 1, [], 0, 0⟩ ⟨2, 1, [], 0, 0⟩
      (by decide) (by decide) (by decide) (by decide)).1
    (by decide) (by decide)
    (fun k hk1 hk2 x hx => by
      have hk : k = 1 := by omega
      subst hk
      have hcl : clusterRows[1]? = some (⟨1, 1, [], 0, -1⟩ : Row) := by decide
      rw [hcl] at hx
      cases Option.some.inj hx
      decide)

/-- `neutralize` respects probability-blind row equality. -/
theorem sameExceptProb_neutralize {r r' : Row} (h : sameExceptProb r r') :
    sameExceptProb (neutralize r) (neutralize r') :=
  ⟨h.1, h.2.1, h.2.2.1, rfl⟩

/-- `orderedInsert` maps probability-blind equal inputs to probability-blind
equal outputs (the comparator only reads dates, which agree). -/
theorem orderedInsert_forall₂ {a b : Row} :
    ∀ {l₁ l₂ : List Row}, sameExceptProb a b →
      List.Forall₂ sameExceptProb l₁ l₂ →
      List.Forall₂ sameExceptProb (List.orderedInsert dateLe a l₁)
        (List.orderedInsert dateLe b l₂) := by
  intro l₁ l₂ hab h
  induction h with
  | nil => exact List.Forall₂.cons hab List.Forall₂.nil
  | @cons x y t₁ t₂ hxy htail ih =>
    by_cases hc : dateLe a x
    · have hc' : dateLe b y := by
        unfold dateLe at *
        rw [← hab.1, ← hxy.1]
        exact hc
      rw [List.orderedInsert, if_pos hc, List.orderedInsert, if_pos hc']
      exact List.Forall₂.cons hab (List.Forall₂.cons hxy htail)
    · have hc' : ¬ dateLe b y := by
        unfold dateLe at *
        rw [← hab.1, ← hxy.1]
        exact hc
      rw [List.orderedInsert, if_neg hc, List.orderedInsert, if_neg hc']
      exact List.Forall₂.cons hxy ih

/-- `insertionSort` (the model of `sort_values(by='date')`) maps
probability-blind equal inputs to probability-blind equal outputs. -/
theorem insertionSort_forall₂ :
    ∀ {l₁ l₂ : List Row}, List.Forall₂ sameExceptProb l₁ l₂ →
      List.Forall₂ sameExceptProb (List.insertionSort dateLe l₁)
        (List.insertionSort dateLe l₂) := by
  intro l₁ l₂ h
  induction h with
  | nil => exact List.Forall₂.nil
  | @cons x y t₁ t₂ hxy htail ih =>
    rw [List.insertionSort, List.insertionSort]
    exact orderedInsert_forall₂ hxy ih

/-- The suppression loop never reads `predicted_probability`: on
probability-blind equal inputs it makes identical decisions. -/
theorem filterLoop_forall₂ (w : Int) {l₁ l₂ : List Row}
    (h : List.Forall₂ sameExceptProb l₁ l₂) :
    ∀ (lm lM idx : Int),
      List.Forall₂ sameExceptProb (filterLoop w lm lM idx l₁)
        (filterLoop w lm lM idx l₂) := by
  induction h with
  | nil => intro lm lM idx; exact List.Forall₂.nil
  | @cons x y t₁ t₂ hxy htail ih =>
    intro lm lM idx
    have htgt : x.predicted_target = y.predicted_target := hxy.2.2.2
    by_cases h0 : x.predicted_target = 0
    · have h0' : y.predicted_target = 0 := by rw [← htgt]; exact h0
      by_cases hacc : idx - lm > w
      · have e₁ : filterLoop w lm lM idx (x :: t₁) = x :: filterLoop w idx lM (idx + 1) t₁ := by
          show (if x.predicted_target = 0 then _ else _) = _
          rw [if_pos h0, if_pos hacc]
        have e₂ : filterLoop w lm lM idx (y :: t₂) = y :: filterLoop w idx lM (idx + 1) t₂ := by
          show (if y.predicted_target = 0 then _ else _) = _
          rw [if_pos h0', if_pos hacc]
        rw [e₁, e₂]
        exact List.Forall₂.cons hxy (ih idx lM (idx + 1))
      · have e₁ : filterLoop w lm lM idx (x :: t₁)
            = neutralize x :: filterLoop w lm lM (idx + 1) t₁ := by
          show (if x.predicted_target = 0 then _ else _) = _
          rw [if_pos h0, if_neg hacc]
        have e₂ : filterLoop w lm lM idx (y :: t₂)
            = neutralize y :: filterLoop w lm lM (idx + 1) t₂ := by
          show (if y.predicted_target = 0 then _ else _) = _
          rw [if_pos h0', if_neg hacc]
        rw [e₁, e₂]
        exact List.Forall₂.cons (sameExceptProb_neutralize hxy) (ih lm lM (idx + 1))
    · have h0' : ¬ y.predicted_target = 0 := by rw [← htgt]; exact h0
      by_cases h1 : x.predicted_target = 1
      · have h1' : y.predicted_target = 1 := by rw [← htgt]; exact h1
        by_cases hacc : idx - lM > w
        · have e₁ : filterLoop w lm lM idx (x :: t₁) = x :: filterLoop w lm idx (idx + 1) t₁ := by
            show (if x.predicted_target = 0 then _ else _) = _
            rw [if_neg h0, if_pos h1, if_pos hacc]
          have e₂ : filterLoop w lm lM idx (y :: t₂) = y :: filterLoop w lm idx (idx + 1) t₂ := by
            show (if y.predicted_target = 0 then _ else _) = _
            rw [if_neg h0', if_pos h1', if_pos hacc]
          rw [e₁, e₂]
          exact List.Forall₂.cons hxy (ih lm idx (idx + 1))
        · have e₁ : filterLoop w lm lM idx (x :: t₁)
              = neutralize x :: filterLoop w lm lM (idx + 1) t₁ := by
            show (if x.predicted_target = 0 then _ else _) = _
            rw [if_neg h0, if_pos h1, if_neg hacc]
          have e₂ : filterLoop w lm lM idx (y :: t₂)
              = neutralize y :: filterLoop w lm lM (idx + 1) t₂ := by
            show (if y.predicted_target = 0 then _ else _) = _
            rw [if_neg h0', if_pos h1', if_neg hacc]
          rw [e₁, e₂]
          exact List.Forall₂.cons (sameExceptProb_neutralize hxy) (ih lm lM (idx + 1))
      · have h1' : ¬ y.predicted_target = 1 := by rw [← htgt]; exact h1
        have e₁ : filterLoop w lm lM idx (x :: t₁) = x :: filterLoop w lm lM (idx + 1) t₁ := by
          show (if x.predicted_target = 0 then _ else _) = _
          rw [if_neg h0, if_neg h1]
        have e₂ : filterLoop w lm lM idx (y :: t₂) = y :: filterLoop w lm lM (idx + 1) t₂ := by
          show (if y.predicted_target = 0 then _ else _) = _
          rw [if_neg h0', if_neg h1']
        rw [e₁, e₂]
        exact List.Forall₂.cons hxy (ih lm lM (idx + 1))

/-- C4: whenever a candidate of a kind is accepted at index `i`, every later
raw candidate of the same kind within `window_size` rows of `i` (the cluster
hanging off the previously accepted signal) is downgraded to neutral; the
first raw candidate of a kind is itself always accepted; and the filter's
decisions never depend on `predicted_probability` values. -/
theorem c4_first_wins (w : Int) (rows : List Row) :
    (∀ (i : Nat) (ri : Row), List.Pairwise dateLe rows →
      rows[i]? = some ri → ri.predicted_target = 0 →
      (((filter_predictions w rows)[i]? = some ri →
        ∀ (j : Nat) (rj : Row), rows[j]? = some rj → rj.predicted_target = 0 →
          i < j → (j : Int) - (i : Int) ≤ w →
          (filter_predictions w rows)[j]? = some (neutralize rj)) ∧
       ((∀ x ∈ rows.take i, x.predicted_target ≠ 0) →
        (filter_predictions w rows)[i]? = some ri))) ∧
    (∀ (i : Nat) (ri : Row), List.Pairwise dateLe rows →
      rows[i]? = some ri → ri.predicted_target = 1 →
      (((filter_predictions w rows)[i]? = some ri →
        ∀ (j : Nat) (rj : Row), rows[j]? = some rj → rj.predicted_target = 1 →
          i < j → (j : Int) - (i : Int) ≤ w →
          (filter_predictions w rows)[j]? = some (neutralize rj)) ∧
       ((∀ x ∈ rows.take i, x.predicted_target ≠ 1) →
        (filter_predictions w rows)[i]? = some ri))) ∧
    (∀ rows₂ : List Row, List.Forall₂ sameExceptProb rows rows₂ →
      List.Forall₂ sameExceptProb (filter_predictions w rows)
        (filter_predictions w rows₂)) := by
  refine ⟨?_, ?_, ?_⟩
  · intro i ri hsorted hi h0
    have hsort : sortByDate rows = rows := List.Sorted.insertionSort_eq hsorted
    have hfp : filter_predictions w rows = filterLoop w (-w - 1) (-w - 1) 0 rows := by
      rw [filter_predictions, hsort]
    constructor
    · intro hout j rj hj hrawj hij hjw
      have hst : stMin w (-w - 1) 0 (rows.take (i + 1)) = (i : Int) := by
        obtain ⟨-, -, hs⟩ := accepted_min_state w rows i ri (by rw [← hfp]; exact hout) h0
        exact hs
      have hstj := stMin_window w rows i j hij hjw hst
      rw [hfp, filterLoop_getElem w rows (-w - 1) (-w - 1) 0 j, hj, Option.map_some',
        if_pos hrawj, hstj,
        if_neg (show ¬ ((0 : Int) + (j : Int) - (i : Int) > w) by omega)]
    · intro hnone
      have hstI : stMin w (-w - 1) 0 (rows.take i) = -w - 1 :=
        stMin_no_min w (rows.take i) (-w - 1) 0 hnone
      have hcond : (0 : Int) + (i : Int) - stMin w (-w - 1) 0 (rows.take i) > w := by
        rw [hstI]
        have := Int.natCast_nonneg i
        omega
      rw [hfp, filterLoop_getElem w rows (-w - 1) (-w - 1) 0 i, hi, Option.map_some',
        if_pos h0, if_pos hcond]
  · intro i ri hsorted hi h1
    have hr0 : ¬ ri.predicted_target = 0 := by rw [h1]; decide
    have hsort : sortByDate rows = rows := List.Sorted.insertionSort_eq hsorted
    have hfp : filter_predictions w rows = filterLoop w (-w - 1) (-w - 1) 0 rows := by
      rw [filter_predictions, hsort]
    constructor
    · intro hout j rj hj hrawj hij hjw
      have hrj0 : ¬ rj.predicted_target = 0 := by rw [hrawj]; decide
      have hst : stMax w (-w - 1) 0 (rows.take (i + 1)) = (i : Int) := by
        obtain ⟨-, -, hs⟩ := accepted_max_state w rows i ri (by rw [← hfp]; exact hout) h1
        exact hs
      have hstj := stMax_window w rows i j hij hjw hst
      rw [hfp, filterLoop_getElem w rows (-w - 1) (-w - 1) 0 j, hj, Option.map_some',
        if_neg hrj0, if_pos hrawj, hstj,
        if_neg (show ¬ ((0 : Int) + (j : Int) - (i : Int) > w) by omega)]
    · intro hnone
      have hstI : stMax w (-w - 1) 0 (rows.take i) = -w - 1 :=
        stMax_no_max w (rows.take i) (-w - 1) 0 hnone
      have hcond : (0 : Int) + (i : Int) - stMax w (-w - 1) 0 (rows.take i) > w := by
        rw [hstI]
        have := Int.natCast_nonneg i
        omega
      rw [hfp, filterLoop_getElem w rows (-w - 1) (-w - 1) 0 i, hi, Option.map_some',
        if_neg hr0, if_pos h1, if_pos hcond]
  · intro rows₂ h
    exact filterLoop_forall₂ w (insertionSort_forall₂ h) (-w - 1) (-w - 1) 0

/-- Witness for C4 on the sample scenario (`window_size = 1`): the minimum at
position 0 is kept, the cluster member at position 1 is downgraded, and a
copy of the scenario with all probabilities changed to `9` filters
identically up to probabilities. -/
theorem c4_first_wins_witness :
    ((filter_predictions 1 sampleRows)[0]? = some ⟨0, 1, [], 0, 0⟩ ∧
     (filter_predictions 1 sampleRows)[1]? = some (neutralize ⟨1, 1, [], 0, 0⟩)) ∧
    List.Forall₂ sameExceptProb (filter_predictions 1 sampleRows)
      (filter_predictions 1 sampleRowsAltProb) := by
  have h := c4_first_wins 1 sampleRows
  have hmin := h.1 0 ⟨0, 1, [], 0, 0⟩ (by decide) (by decide) (by decide)
  have hacc : (filter_predictions 1 sampleRows)[0]? = some ⟨0, 1, [], 0, 0⟩ :=
    hmin.2 (by intro x hx; simp [sampleRows] at hx)
  refine ⟨⟨hacc, hmin.1 hacc 1 ⟨1, 1, [], 0, 0⟩ (by decide) (by decide) (by decide)
    (by decide)⟩, ?_⟩
  refine h.2.2 sampleRowsAltProb ?_
  exact List.Forall₂.cons ⟨rfl, rfl, rfl, rfl⟩ (List.Forall₂.cons ⟨rfl, rfl, rfl, rfl⟩
    (List.Forall₂.cons ⟨rfl, rfl, rfl, rfl⟩ (List.Forall₂.cons ⟨rfl, rfl, rfl, rfl⟩
      (List.Forall₂.cons ⟨rfl, rfl, rfl, rfl⟩ List.Forall₂.nil))))

/-- Erasing maxima does not move any row: dates are unchanged. -/
theorem eraseMax_date (r : Row) :
    (if r.predicted_target = 1 then neutralize r else r).date = r.date := by
  split_ifs <;> rfl

/-- Erasing minima does not move any row: dates are unchanged. -/
theorem eraseMin_date (r : Row) :
    (if r.predicted_target = 0 then neutralize r else r).date = r.date := by
  split_ifs <;> rfl

/-- Sorting by date commutes with erasing the maxima. -/
theorem sortByDate_eraseMaxima (rows : List Row) :
    sortByDate (eraseMaxima rows) = eraseMaxima (sortByDate rows) := by
  unfold sortByDate eraseMaxima
  exact (List.map_insertionSort dateLe dateLe _ rows (fun a _ b _ => by
    unfold dateLe
    rw [eraseMax_date, eraseMax_date])).symm

/-- Sorting by date commutes with erasing the minima. -/
theorem sortByDate_eraseMinima (rows : List Row) :
    sortByDate (eraseMinima rows) = eraseMinima (sortByDate rows) := by
  unfold sortByDate eraseMinima
  exact (List.map_insertionSort dateLe dateLe _ rows (fun a _ b _ => by
    unfold dateLe
    rw [eraseMin_date, eraseMin_date])).symm

/-- With the maxima erased, the loop makes exactly the same minima decisions,
regardless of the maxima state it is started in. -/
theorem minIndices_filterLoop_eraseMaxima (w : Int) :
    ∀ (rows : List Row) (lm lM lM' idx : Int),
      minIndices idx (filterLoop w lm lM idx (eraseMaxima rows)) =
      minIndices idx (filterLoop w lm lM' idx rows)
  | [], _, _, _, _ => rfl
  | r :: rs, lm, lM, lM', idx => by
    have hmap : eraseMaxima (r :: rs)
        = (if r.predicted_target = 1 then neutralize r else r) :: eraseMaxima rs := rfl
    rw [hmap]
    by_cases h0 : r.predicted_target = 0
    · have h1 : ¬ r.predicted_target = 1 := by rw [h0]; decide
      rw [if_neg h1]
      by_cases hacc : idx - lm > w
      · have e₁ : filterLoop w lm lM idx (r :: eraseMaxima rs)
            = r :: filterLoop w idx lM (idx + 1) (eraseMaxima rs) := by
          show (if r.predicted_target = 0 then _ else _) = _
          rw [if_pos h0, if_pos hacc]
        have e₂ : filterLoop w lm lM' idx (r :: rs)
            = r :: filterLoop w idx lM' (idx + 1) rs := by
          show (if r.predicted_target = 0 then _ else _) = _
          rw [if_pos h0, if_pos hacc]
        rw [e₁, e₂, minIndices, minIndices, if_pos h0, if_pos h0,
          minIndices_filterLoop_eraseMaxima w rs idx lM lM' (idx + 1)]
      · have e₁ : filterLoop w lm lM idx (r :: eraseMaxima rs)
            = neutralize r :: filterLoop w lm lM (idx + 1) (eraseMaxima rs) := by
          show (if r.predicted_target = 0 then _ else _) = _
          rw [if_pos h0, if_neg hacc]
        have e₂ : filterLoop w lm lM' idx (r :: rs)
            = neutralize r :: filterLoop w lm lM' (idx + 1) rs := by
          show (if r.predicted_target = 0 then _ else _) = _
          rw [if_pos h0, if_neg hacc]
        have hn0 : ¬ (neutralize r).predicted_target = 0 := by simp [neutralize]
        rw [e₁, e₂, minIndices, minIndices, if_neg hn0, if_neg hn0,
          minIndices_filterLoop_eraseMaxima w rs lm lM lM' (idx + 1)]
    · by_cases h1 : r.predicted_target = 1
      · rw [if_pos h1]
        have hn0 : ¬ (neutralize r).predicted_target = 0 := by simp [neutralize]
        have hn1 : ¬ (neutralize r).predicted_target = 1 := by simp [neutralize]
        have e₁ : filterLoop w lm lM idx (neutralize r :: eraseMaxima rs)
            = neutralize r :: filterLoop w lm lM (idx + 1) (eraseMaxima rs) := by
          show (if (neutralize r).predicted_target = 0 then _ else _) = _
          rw [if_neg hn0, if_neg hn1]
        rw [e₁, minIndices, if_neg hn0]
        by_cases hacc : idx - lM' > w
        · have e₂ : filterLoop w lm lM' idx (r :: rs)
              = r :: filterLoop w lm idx (idx + 1) rs := by
            show (if r.predicted_target = 0 then _ else _) = _
            rw [if_neg h0, if_pos h1, if_pos hacc]
          rw [e₂, minIndices, if_neg h0,
            minIndices_filterLoop_eraseMaxima w rs lm lM idx (idx + 1)]
        · have e₂ : filterLoop w lm lM' idx (r :: rs)
              = neutralize r :: filterLoop w lm lM' (idx + 1) rs := by
            show (if r.predicted_target = 0 then _ else _) = _
            rw [if_neg h0, if_pos h1, if_neg hacc]
          rw [e₂, minIndices, if_neg hn0,
            minIndices_filterLoop_eraseMaxima w rs lm lM lM' (idx + 1)]
      · rw [if_neg h1]
        have e₁ : filterLoop w lm lM idx (r :: eraseMaxima rs)
            = r :: filterLoop w lm lM (idx + 1) (eraseMaxima rs) := by
          show (if r.predicted_target = 0 then _ else _) = _
          rw [if_neg h0, if_neg h1]
        have e₂ : filterLoop w lm lM' idx (r :: rs)
            = r :: filterLoop w lm lM' (idx + 1) rs := by
          show (if r.predicted_target = 0 then _ else _) = _
          rw [if_neg h0, if_neg h1]
        rw [e₁, e₂, minIndices, minIndices, if_neg h0, if_neg h0,
          minIndices_filterLoop_eraseMaxima w rs lm lM lM' (idx + 1)]

/-- With the minima erased, the loop makes exactly the same maxima decisions,
regardless of the minima state it is started in. -/
theorem maxIndices_filterLoop_eraseMinima (w : Int) :
    ∀ (rows : List Row) (lm lm' lM idx : Int),
      maxIndices idx (filterLoop w lm lM idx (eraseMinima rows)) =
      maxIndices idx (filterLoop w lm' lM idx rows)
  | [], _, _, _, _ => rfl
  | r :: rs, lm, lm', lM, idx => by
    have hmap : eraseMinima (r :: rs)
        = (if r.predicted_target = 0 then neutralize r else r) :: eraseMinima rs := rfl
    rw [hmap]
    by_cases h1 : r.predicted_target = 1
    · have h0 : ¬ r.predicted_target = 0 := by rw [h1]; decide
      rw [if_neg h0]
      by_cases hacc : idx - lM > w
      · have e₁ : filterLoop w lm lM idx (r :: eraseMinima rs)
            = r :: filterLoop w lm idx (idx + 1) (eraseMinima rs) := by
          show (if r.predicted_target = 0 then _ else _) = _
          rw [if_neg h0, if_pos h1, if_pos hacc]
        have e₂ : filterLoop w lm' lM idx (r :: rs)
            = r :: filterLoop w lm' idx (idx + 1) rs := by
          show (if r.predicted_target = 0 then _ else _) = _
          rw [if_neg h0, if_pos h1, if_pos hacc]
        rw [e₁, e₂, maxIndices, maxIndices, if_pos h1, if_pos h1,
          maxIndices_filterLoop_eraseMinima w rs lm lm' idx (idx + 1)]
      · have e₁ : filterLoop w lm lM idx (r :: eraseMinima rs)
            = neutralize r :: filterLoop w lm lM (idx + 1) (eraseMinima rs) := by
          show (if r.predicted_target = 0 then _ else _) = _
          rw [if_neg h0, if_pos h1, if_neg hacc]
        have e₂ : filterLoop w lm' lM idx (r :: rs)
            = neutralize r :: filterLoop w lm' lM (idx + 1) rs := by
          show (if r.predicted_target = 0 then _ else _) = _
          rw [if_neg h0, if_pos h1, if_neg hacc]
        have hn1 : ¬ (neutralize r).predicted_target = 1 := by simp [neutralize]
        rw [e₁, e₂, maxIndices, maxIndices, if_neg hn1, if_neg hn1,
          maxIndices_filterLoop_eraseMinima w rs lm lm' lM (idx + 1)]
    · by_cases h0 : r.predicted_target = 0
      · rw [if_pos h0]
        have hn0 : ¬ (neutralize r).predicted_target = 0 := by simp [neutralize]
        have hn1 : ¬ (neutralize r).predicted_target = 1 := by simp [neutralize]
        have e₁ : filterLoop w lm lM idx (neutralize r :: eraseMinima rs)
            = neutralize r :: filterLoop w lm lM (idx + 1) (eraseMinima rs) := by
          show (if (neutralize r).predicted_target = 0 then _ else _) = _
          rw [if_neg hn0, if_neg hn1]
        rw [e₁, maxIndices, if_neg hn1]
        by_cases hacc : idx - lm' > w
        · have e₂ : filterLoop w lm' lM idx (r :: rs)
              = r :: filterLoop w idx lM (idx + 1) rs := by
            show (if r.predicted_target = 0 then _ else _) = _
            rw [if_pos h0, if_pos hacc]
          rw [e₂, maxIndices, if_neg h1,
            maxIndices_filterLoop_eraseMinima w rs lm idx lM (idx + 1)]
        · have e₂ : filterLoop w lm' lM idx (r :: rs)
              = neutralize r :: filterLoop w lm' lM (idx + 1) rs := by
            show (if r.predicted_target = 0 then _ else _) = _
            rw [if_pos h0, if_neg hacc]
          rw [e₂, maxIndices, if_neg hn1,
            maxIndices_filterLoop_eraseMinima w rs lm lm' lM (idx + 1)]
      · rw [if_neg h0]
        have e₁ : filterLoop w lm lM idx (r :: eraseMinima rs)
            = r :: filterLoop w lm lM (idx + 1) (eraseMinima rs) := by
          show (if r.predicted_target = 0 then _ else _) = _
          rw [if_neg h0, if_neg h1]
        have e₂ : filterLoop w lm' lM idx (r :: rs)
            = r :: filterLoop w lm' lM (idx + 1) rs := by
          show (if r.predicted_target = 0 then _ else _) = _
          rw [if_neg h0, if_neg h1]
        rw [e₁, e₂, maxIndices, maxIndices, if_neg h1, if_neg h1,
          maxIndices_filterLoop_eraseMinima w rs lm lm' lM (idx + 1)]

/-- C6: two-run noninterference between the kinds: replacing every maximum
row by a neutral one leaves the minima decisions of the filter unchanged, and
replacing every minimum row by a neutral one leaves the maxima decisions
unchanged — for every input sequence. -/
theorem c6_kind_independence (w : Int) (rows : List Row) :
    minIndices 0 (filter_predictions w (eraseMaxima rows)) =
      minIndices 0 (filter_predictions w rows) ∧
    maxIndices 0 (filter_predictions w (eraseMinima rows)) =
      maxIndices 0 (filter_predictions w rows) := by
  constructor
  · show minIndices 0 (filterLoop w (-w - 1) (-w - 1) 0 (sortByDate (eraseMaxima rows))) = _
    rw [sortByDate_eraseMaxima]
    exact minIndices_filterLoop_eraseMaxima w (sortByDate rows) (-w - 1) (-w - 1) (-w - 1) 0
  · show maxIndices 0 (filterLoop w (-w - 1) (-w - 1) 0 (sortByDate (eraseMinima rows))) = _
    rw [sortByDate_eraseMinima]
    exact maxIndices_filterLoop_eraseMinima w (sortByDate rows) (-w - 1) (-w - 1) (-w - 1) 0
